import Mathlib

/-!
Verification of the chess rules engine in `src/chess/` (board.py, square.py,
pieces/). The Python classes are shallowly embedded: the 8×8 grid of
`Square` objects becomes a total occupancy function `Int → Int → Option Piece`
(every read in the modelled code paths is bounds-guarded or reached with
in-range coordinates), the string tags 'white'/'black' and the piece-name
strings become closed inductive types, and in-place mutation becomes explicit
state passing (`Board → Board`, or `Bool × Board` where a method both returns
a value and mutates).  Render-only state (pygame images, pixel rects, square
highlight tags) is omitted: no rule-logic branch in the source reads it.
-/

/-- Python color tag: the strings 'white' / 'black' (constant.py). -/
inductive Color where
  | white
  | black
deriving DecidableEq, Repr

/-- Python piece-name strings; a closed set ('pawn' … 'king', constant.py). -/
inductive Kind where
  | pawn
  | knight
  | bishop
  | rook
  | queen
  | king
deriving DecidableEq, Repr

/-- A piece, as in `pieces/piece.py` plus the `has_moved` flag that `Pawn`
and `King` (and, per the spec, `Rook`) initialise to `False`.  The pygame
`image` field and the evaluation `value` are omitted: no rules code reads
them.  Kinds whose Python class does not define `has_moved` never have the
attribute read, so carrying the field uniformly is harmless. -/
structure Piece where
  color : Color
  name : Kind
  has_moved : Bool
deriving DecidableEq, Repr

/-- The `last_move` dictionary built by `Board._update_last_move`. -/
structure LastMove where
  piece : Piece
  from_pos : Int × Int
  to_pos : Int × Int
  is_double_pawn_move : Bool
  captured_piece : Option Piece
deriving DecidableEq, Repr

/-- Castling side argument: the strings 'king' / 'queen'. -/
inductive Side where
  | king
  | queen
deriving DecidableEq, Repr

/-- Engine-relevant state of `Board` (board.py `__init__`): the grid
occupancy, whose square is selected, the current player, capture lists, the
cached legal-destination list and the `enpassant_move` list, and the last
move.  Highlights are render-only and omitted. -/
structure Board where
  squares : Int → Int → Option Piece
  selected_square : Option (Int × Int)
  current_player : Color
  captured_white_pieces : List Piece
  captured_black_pieces : List Piece
  valid_moves : List (Int × Int)
  enpassant_move : List (Int × Int)
  last_move : Option LastMove

/-- The row indices 0..7 iterated by `for row in range(BOARD_SIZE)`. -/
def range8 : List Int := [0, 1, 2, 3, 4, 5, 6, 7]

/-- Row-major scan order of the two nested `range(BOARD_SIZE)` loops. -/
def all_positions : List (Int × Int) :=
  range8.flatMap fun r => range8.map fun c => (r, c)

/-- `'black' if color == 'white' else 'white'`. -/
def enemy_of : Color → Color
  | .white => .black
  | .black => .white

/-- `Square.set_piece` / `Square.clear` at coordinates `(r, c)`: the board
with that one square's occupant replaced. -/
def Board.set_piece_at (b : Board) (r c : Int) (p : Option Piece) : Board :=
  { b with squares := fun r' c' => if r' = r ∧ c' = c then p else b.squares r' c' }

/-- The pawn's forward direction in `Pawn.get_valid_moves` and
`_get_available_en_passant_moves`: `-1 if color == 'white' else 1`. -/
def pawn_direction (p : Piece) : Int :=
  if p.color = .white then -1 else 1

/-- `Pawn.get_valid_moves` (pieces/pawn.py): single / double forward step
into empty squares, diagonal captures of enemy pieces. -/
def pawn_moves (p : Piece) (b : Board) (pos : Int × Int) :
    List (Int × Int) × List (Int × Int) :=
  let row := pos.1
  let col := pos.2
  let direction := pawn_direction p
  let new_row := row + direction
  let moves :=
    if 0 ≤ new_row ∧ new_row < 8 then
      if b.squares new_row col = none then
        (new_row, col) ::
          (if p.has_moved = false then
            let double_row := row + 2 * direction
            if 0 ≤ double_row ∧ double_row < 8 then
              if b.squares double_row col = none then [(double_row, col)] else []
            else []
          else [])
      else []
    else []
  let capture_moves :=
    [col - 1, col + 1].foldl
      (fun acc capture_col =>
        if 0 ≤ capture_col ∧ capture_col < 8 ∧ 0 ≤ new_row ∧ new_row < 8 then
          match b.squares new_row capture_col with
          | some q => if ¬ (q.color = p.color) then acc ++ [(new_row, capture_col)] else acc
          | none => acc
        else acc)
      []
  (moves, capture_moves)

/-- Shared shape of the knight/king offset loops: each offset is taken when
in bounds, landing on an empty square gives a quiet move, landing on an
enemy piece gives a capture. -/
def offset_moves (p : Piece) (b : Board) (pos : Int × Int)
    (offsets : List (Int × Int)) : List (Int × Int) × List (Int × Int) :=
  offsets.foldl
    (fun acc off =>
      let new_row := pos.1 + off.1
      let new_col := pos.2 + off.2
      if 0 ≤ new_row ∧ new_row < 8 ∧ 0 ≤ new_col ∧ new_col < 8 then
        match b.squares new_row new_col with
        | none => (acc.1 ++ [(new_row, new_col)], acc.2)
        | some q =>
          if ¬ (q.color = p.color) then (acc.1, acc.2 ++ [(new_row, new_col)]) else acc
      else acc)
    ([], [])

/-- `Knight.get_valid_moves` (pieces/knight.py). -/
def knight_moves (p : Piece) (b : Board) (pos : Int × Int) :
    List (Int × Int) × List (Int × Int) :=
  offset_moves p b pos
    [(-2, -1), (-2, 1), (-1, -2), (-1, 2), (1, -2), (1, 2), (2, -1), (2, 1)]

/-- `King.get_valid_moves` (pieces/king.py); castling is board-level. -/
def king_moves (p : Piece) (b : Board) (pos : Int × Int) :
    List (Int × Int) × List (Int × Int) :=
  offset_moves p b pos
    [(-1, -1), (-1, 0), (-1, 1), (0, -1), (0, 1), (1, -1), (1, 0), (1, 1)]

/-- One sliding ray: `for distance in range(1, 8)` walking `pos + dir*d`,
stopping at the board edge or at the first occupied square, which is added
as a capture when it holds an enemy piece (pieces/bishop.py, queen.py). -/
def ray_from (p : Piece) (b : Board) (pos : Int × Int) (dir : Int × Int) :
    List Int → List (Int × Int) × List (Int × Int)
  | [] => ([], [])
  | d :: rest =>
    let new_row := pos.1 + dir.1 * d
    let new_col := pos.2 + dir.2 * d
    if 0 ≤ new_row ∧ new_row < 8 ∧ 0 ≤ new_col ∧ new_col < 8 then
      match b.squares new_row new_col with
      | none =>
        let tail := ray_from p b pos dir rest
        ((new_row, new_col) :: tail.1, tail.2)
      | some q =>
        if ¬ (q.color = p.color) then ([], [(new_row, new_col)]) else ([], [])
    else ([], [])

/-- The distances 1..7 of `range(1, 8)`. -/
def ray_distances : List Int := [1, 2, 3, 4, 5, 6, 7]

/-- `for direction in directions:` — concatenating the per-direction ray
results in direction order. -/
def slider_moves (p : Piece) (b : Board) (pos : Int × Int)
    (directions : List (Int × Int)) : List (Int × Int) × List (Int × Int) :=
  directions.foldl
    (fun acc dir =>
      let res := ray_from p b pos dir ray_distances
      (acc.1 ++ res.1, acc.2 ++ res.2))
    ([], [])

/-- `Bishop.get_valid_moves` (pieces/bishop.py). -/
def bishop_moves (p : Piece) (b : Board) (pos : Int × Int) :
    List (Int × Int) × List (Int × Int) :=
  slider_moves p b pos [(-1, -1), (-1, 1), (1, -1), (1, 1)]

/-- `Queen.get_valid_moves` (pieces/queen.py): the 8 rook+bishop rays. -/
def queen_moves (p : Piece) (b : Board) (pos : Int × Int) :
    List (Int × Int) × List (Int × Int) :=
  slider_moves p b pos
    [(-1, 0), (1, 0), (0, -1), (0, 1), (-1, -1), (-1, 1), (1, -1), (1, 1)]

/-- Modelled from the spec: `src/chess/pieces/rook.py` is absent from the
repository (board.py imports it).  Spec §4.1: "Rook: analogous to bishop
along the 4 orthogonal rays … implement identically to bishop with
orthogonal directions." -/
def rook_moves (p : Piece) (b : Board) (pos : Int × Int) :
    List (Int × Int) × List (Int × Int) :=
  slider_moves p b pos [(-1, 0), (1, 0), (0, -1), (0, 1)]

/-- Python's virtual dispatch of `piece.get_valid_moves(board, position)`
over the fixed class family, as a match on the kind tag. -/
def get_valid_moves (p : Piece) (b : Board) (pos : Int × Int) :
    List (Int × Int) × List (Int × Int) :=
  match p.name with
  | .pawn => pawn_moves p b pos
  | .knight => knight_moves p b pos
  | .bishop => bishop_moves p b pos
  | .rook => rook_moves p b pos
  | .queen => queen_moves p b pos
  | .king => king_moves p b pos

/-- The per-square test of `Board._find_king_position`: the square holds a
king of the given color. -/
def king_matches (b : Board) (color : Color) (rc : Int × Int) : Bool :=
  match b.squares rc.1 rc.2 with
  | some p => decide (p.name = .king ∧ p.color = color)
  | none => false

/-- `Board._find_king_position`: row-major scan returning the first square
holding a king of the given color, else `None`. -/
def Board.find_king_position (b : Board) (color : Color) : Option (Int × Int) :=
  all_positions.find? (king_matches b color)

/-- `Board.is_in_check`: locate the king (returning `False` when absent)
and scan every enemy piece's raw capture list for the king's square. -/
def Board.is_in_check (b : Board) (color : Color) : Bool :=
  match b.find_king_position color with
  | none => false
  | some king_position =>
    range8.any fun row => range8.any fun col =>
      match b.squares row col with
      | some pc =>
        decide (pc.color = enemy_of color) &&
          decide (king_position ∈ (get_valid_moves pc b (row, col)).2)
      | none => false

/-- `Board._is_square_under_attack`: scan every square holding an
attacker-colored piece and test whether `position` is in its raw capture
list. -/
def Board.is_square_under_attack (b : Board) (position : Int × Int)
    (defender_color : Color) : Bool :=
  let attacker_color := enemy_of defender_color
  range8.any fun row => range8.any fun col =>
    match b.squares row col with
    | some pc =>
      decide (pc.color = attacker_color) &&
        decide (position ∈ (get_valid_moves pc b (row, col)).2)
    | none => false

/-- The `row = 7 if color == 'white' else 0` home rank of `can_castle` and
`execute_castle`. -/
def home_row (color : Color) : Int :=
  if color = .white then 7 else 0

/-- The `rook_col = 7 if side == 'king' else 0` of `can_castle`. -/
def castle_rook_col (side : Side) : Int :=
  if side = .king then 7 else 0

/-- `Board.can_castle(color, side)` (board.py lines 27-82): king and rook
present on the home rank with `has_moved` unset, king not in check, the
squares between them empty (cols 5-6 kingside, 1-3 queenside), and the
transit squares (col 5 kingside; cols 2 and 3 queenside) not attacked.
The four early-return groups become nested conditionals. -/
def Board.can_castle (b : Board) (color : Color) (side : Side) : Bool :=
  let row := home_row color
  let king_col : Int := 4
  let rook_col := castle_rook_col side
  match b.squares row king_col, b.squares row rook_col with
  | some king_piece, some rook_piece =>
    if ¬ (king_piece.name = .king) ∨ ¬ (rook_piece.name = .rook) ∨
        king_piece.has_moved = true ∨ rook_piece.has_moved = true then false
    else if b.is_in_check color then false
    else if side = .king then
      if ¬ (b.squares row 5 = none ∧ b.squares row 6 = none) then false
      else ! b.is_square_under_attack (row, 5) color
    else
      if ¬ (b.squares row 1 = none ∧ b.squares row 2 = none ∧
            b.squares row 3 = none) then false
      else ! (b.is_square_under_attack (row, 2) color ||
              b.is_square_under_attack (row, 3) color)
  | _, _ => false

/-- `Board.execute_castle` (board.py lines 107-142): move the king to col
6 (kingside) or 2 (queenside) and the rook to col 5 or 3, marking both
`has_moved`.  In Python the relocated object is mutated after placement;
with value semantics the marked piece is placed directly. -/
def Board.execute_castle (b : Board) (color : Color) (side : Side) : Board :=
  let row := home_row color
  let king_from_col : Int := 4
  let king_to_col : Int := if side = .king then 6 else 2
  let rook_from_col : Int := if side = .king then 7 else 0
  let rook_to_col : Int := if side = .king then 5 else 3
  let b1 :=
    match b.squares row king_from_col with
    | some king =>
      (b.set_piece_at row king_to_col (some { king with has_moved := true })).set_piece_at
        row king_from_col none
    | none => b
  match b1.squares row rook_from_col with
  | some rook =>
    (b1.set_piece_at row rook_to_col (some { rook with has_moved := true })).set_piece_at
      row rook_from_col none
  | none => b1

/-- The temporary position built inside `Board._is_move_legal`: place the
source square's occupant on the destination (overwriting any captured
piece) and clear the source. -/
def Board.sim_apply (b : Board) (from_pos to_pos : Int × Int) : Board :=
  (b.set_piece_at to_pos.1 to_pos.2 (b.squares from_pos.1 from_pos.2)).set_piece_at
    from_pos.1 from_pos.2 none

/-- `Board._is_move_legal` (board.py lines 467-497).  The Python method
mutates the board, tests `is_in_check`, and mutates it back; here the
returned pair is (the method's boolean result, the board state after the
undo writes). -/
def Board.is_move_legal (b : Board) (from_pos to_pos : Int × Int) (color : Color) :
    Bool × Board :=
  let moving_piece := b.squares from_pos.1 from_pos.2
  let target_piece := b.squares to_pos.1 to_pos.2
  let b1 := b.sim_apply from_pos to_pos
  let still_in_check := b1.is_in_check color
  let b2 :=
    (b1.set_piece_at from_pos.1 from_pos.2 moving_piece).set_piece_at
      to_pos.1 to_pos.2 target_piece
  (! still_in_check, b2)

/-- `Board.get_legal_moves` (board.py lines 499-526): filter the raw
`moves + captures` through `_is_move_legal`, routing each survivor to the
quiet or capture list according to `move in moves`. -/
def Board.get_legal_moves (b : Board) (row col : Int) :
    List (Int × Int) × List (Int × Int) :=
  match b.squares row col with
  | none => ([], [])
  | some piece =>
    let raw := get_valid_moves piece b (row, col)
    (raw.1 ++ raw.2).foldl
      (fun acc mv =>
        if (b.is_move_legal (row, col) mv piece.color).1 then
          if mv ∈ raw.1 then (acc.1 ++ [mv], acc.2) else (acc.1, acc.2 ++ [mv])
        else acc)
      ([], [])

/-- `Board.is_checkmate` (board.py lines 429-465): false when not in
check; otherwise true exactly when no raw candidate move of any same-color
piece passes `_is_move_legal`. -/
def Board.is_checkmate (b : Board) (color : Color) : Bool :=
  if ! b.is_in_check color then false
  else
    ! (range8.any fun row => range8.any fun col =>
        match b.squares row col with
        | some pc =>
          decide (pc.color = color) &&
            (let raw := get_valid_moves pc b (row, col)
             (raw.1 ++ raw.2).any fun mv => (b.is_move_legal (row, col) mv color).1)
        | none => false)

/-- `Board._is_double_pawn_move`: `abs(from_row - to_row) == 2` (for any
piece; the name notwithstanding, the caller does not require a pawn). -/
def is_double_pawn_move_test (from_position to_position : Int × Int) : Bool :=
  decide ((from_position.1 - to_position.1).natAbs = 2)

/-- `Board._update_last_move` (board.py lines 750-770). -/
def Board.update_last_move (b : Board) (piece : Piece)
    (from_position to_position : Int × Int) (captured_piece : Option Piece) : Board :=
  { b with
    last_move := some
      { piece := piece
        from_pos := from_position
        to_pos := to_position
        is_double_pawn_move := is_double_pawn_move_test from_position to_position
        captured_piece := captured_piece } }

/-- `Board._get_available_en_passant_moves` (board.py lines 579-642): the
guard chain over `last_move`, the capturing pawn's rank, adjacency of the
enemy pawn's destination, and emptiness of the diagonal target square. -/
def Board.get_available_en_passant_moves (b : Board) (pawn : Piece)
    (position : Int × Int) : List (Int × Int) :=
  let row := position.1
  let col := position.2
  match b.last_move with
  | none => []
  | some lm =>
    if ¬ (lm.piece.name = .pawn) then []
    else if ¬ (lm.is_double_pawn_move = true ∧ ¬ (lm.piece.color = pawn.color)) then []
    else if ¬ ((pawn.color = .white ∧ row = 3) ∨ (pawn.color = .black ∧ row = 4)) then []
    else
      let last_to_row := lm.to_pos.1
      let last_to_col := lm.to_pos.2
      if last_to_row = row ∧ (last_to_col - col).natAbs = 1 then
        let direction := pawn_direction pawn
        let en_passant_row := row + direction
        let en_passant_col := last_to_col
        if 0 ≤ en_passant_row ∧ en_passant_row < 8 ∧
            b.squares en_passant_row en_passant_col = none then
          [(en_passant_row, en_passant_col)]
        else []
      else []

/-- `Board._is_en_passant_move_pattern` (board.py lines 644-679): a pawn
moving diagonally one file onto an empty square from its en-passant rank. -/
def Board.is_en_passant_move_pattern (b : Board) (from_pos to_pos : Int × Int) : Bool :=
  match b.squares from_pos.1 from_pos.2 with
  | none => false
  | some piece =>
    if ¬ (piece.name = .pawn) then false
    else if ¬ ((from_pos.2 - to_pos.2).natAbs = 1 ∧ b.squares to_pos.1 to_pos.2 = none)
      then false
    else decide ((piece.color = .white ∧ from_pos.1 = 3) ∨
                 (piece.color = .black ∧ from_pos.1 = 4))

/-- `Board.move_piece` (board.py lines 701-748), returning (captured
piece, new board).  For en passant the victim sits on
`(to_row + direction, to_col)`; the `has_moved` flag is set only for
pawns.  (Every call with `is_en_passant = true` has an occupied, pawn
source square: `handle_click` derives the flag from
`_is_en_passant_move_pattern`, which requires one.) -/
def Board.move_piece (b : Board) (from_pos to_pos : Int × Int)
    (is_en_passant : Bool) : Option Piece × Board :=
  let from_piece := b.squares from_pos.1 from_pos.2
  let (captured_piece, b1) :=
    if is_en_passant then
      let direction : Int := if (from_piece.map Piece.color) = some .white then 1 else -1
      let captured_row := to_pos.1
      let victim_row := captured_row + direction
      (b.squares victim_row to_pos.2, b.set_piece_at victim_row to_pos.2 none)
    else
      (b.squares to_pos.1 to_pos.2, b)
  let moving :=
    match b1.squares from_pos.1 from_pos.2 with
    | some p => some (if p.name = .pawn then { p with has_moved := true } else p)
    | none => none
  let b2 :=
    (b1.set_piece_at to_pos.1 to_pos.2 moving).set_piece_at from_pos.1 from_pos.2 none
  (captured_piece, b2)

/-- `Board.clear_cache`: `clear_highlights()` (which also resets
`valid_moves` to `[]`) plus dropping the selection. -/
def Board.clear_cache (b : Board) : Board :=
  { b with valid_moves := [], selected_square := none }

/-- `Board.switch_player`. -/
def Board.switch_player (b : Board) : Board :=
  { b with current_player := enemy_of b.current_player }

/-- `Board.add_captured_piece`: white pieces go to
`captured_white_pieces`, black ones to `captured_black_pieces`. -/
def Board.add_captured_piece (b : Board) (captured_piece : Piece) : Board :=
  if captured_piece.color = .white then
    { b with captured_white_pieces := b.captured_white_pieces ++ [captured_piece] }
  else
    { b with captured_black_pieces := b.captured_black_pieces ++ [captured_piece] }

/-- `Board.is_current_player_piece`: `piece and piece.color == self.current_player`. -/
def Board.is_current_player_piece (b : Board) (piece : Option Piece) : Bool :=
  match piece with
  | some pc => decide (pc.color = b.current_player)
  | none => false

/-- `Board.get_board_position`: pixel coordinates to `(row, col)` by floor
division by `SQUARE_SIZE = 80`, `None` when off the board. -/
def Board.get_board_position (pos : Int × Int) : Option (Int × Int) :=
  let col := pos.1.fdiv 80
  let row := pos.2.fdiv 80
  if 0 ≤ row ∧ row < 8 ∧ 0 ≤ col ∧ col < 8 then some (row, col) else none

/-- `Board.show_valid_moves` (board.py lines 183-250) without the
render-only highlight writes: reset `valid_moves`, take the legal moves,
append castling destinations for an unmoved king, append check-safe en
passant captures for a pawn (also growing `enpassant_move`), and record
quiet moves followed by capture moves in `valid_moves`. -/
def Board.show_valid_moves (b : Board) (row col : Int) : Board :=
  match b.squares row col with
  | none => b
  | some piece =>
    let legal := b.get_legal_moves row col
    let moves :=
      if piece.name = .king ∧ piece.has_moved = false then
        let m1 := if b.can_castle piece.color .king then legal.1 ++ [(row, 6)] else legal.1
        if b.can_castle piece.color .queen then m1 ++ [(row, 2)] else m1
      else legal.1
    let ep :=
      if piece.name = .pawn then
        (b.get_available_en_passant_moves piece (row, col)).foldl
          (fun acc epm =>
            if (b.is_move_legal (row, col) epm piece.color).1 then
              (acc.1 ++ [epm], acc.2 ++ [(row, col)])
            else acc)
          ([], [])
      else ([], [])
    let capture_moves := legal.2 ++ ep.1
    { b with
      valid_moves := moves ++ capture_moves
      enpassant_move := b.enpassant_move ++ ep.2 }

/-- The `game_over` tag of `Board.get_game_state`. -/
inductive GameOver where
  | white_win
  | black_win
  | white_check
  | black_check
  | playing
deriving DecidableEq, Repr

/-- The dictionary returned by `Board.get_game_state`. -/
structure GameState where
  current_player : Color
  white_in_check : Bool
  black_in_check : Bool
  white_checkmate : Bool
  black_checkmate : Bool
  game_over : GameOver
deriving Repr

/-- `Board.get_game_state` (board.py lines 528-560). -/
def Board.get_game_state (b : Board) : GameState :=
  let white_check := b.is_in_check .white
  let black_check := b.is_in_check .black
  let white_checkmate := b.is_checkmate .white
  let black_checkmate := b.is_checkmate .black
  { current_player := b.current_player
    white_in_check := white_check
    black_in_check := black_check
    white_checkmate := white_checkmate
    black_checkmate := black_checkmate
    game_over :=
      if white_checkmate then .black_win
      else if black_checkmate then .white_win
      else if white_check then .white_check
      else if black_check then .black_check
      else .playing }

/-- `Board.handle_click` (board.py lines 313-427), returning the updated
state; `none` models the `AttributeError` Python would raise when a move
is committed from a selected square that no longer holds a piece (no
reachable flow does).  The Python return values (`('piece_selected', …)`
or `None`) are presentation data and are not modelled.  In Python the
piece object stored by `_update_last_move` aliases the object
`move_piece` or `execute_castle` may have just mutated (a pawn moved
from the selected square, or a castling king selected on its home
square); the recorded piece carries `has_moved` exactly when the
mutated object is the selected one. -/
def Board.handle_click (b : Board) (pos : Int × Int) : Option Board :=
  let gs := b.get_game_state
  if gs.game_over = .white_win ∨ gs.game_over = .black_win then some b
  else
    match Board.get_board_position pos with
    | none => some b
    | some (row, col) =>
      if b.squares row col = none ∧ ¬ ((row, col) ∈ b.valid_moves) then
        some b.clear_cache
      else if b.selected_square = none ∧ b.is_current_player_piece (b.squares row col) then
        some { (b.show_valid_moves row col) with selected_square := some (row, col) }
      else if b.selected_square = some (row, col) then
        some b.clear_cache
      else
        match b.selected_square with
        | none => some b
        | some sel =>
          if (row, col) ∈ b.valid_moves then
            match b.squares sel.1 sel.2 with
            | none => none
            | some moving_piece =>
              let is_castling :=
                moving_piece.name = .king ∧ moving_piece.has_moved = false ∧
                  (col - sel.2).natAbs = 2
              let is_en_passant := b.is_en_passant_move_pattern sel (row, col)
              let (captured_piece, b1) :=
                if is_castling then
                  (none,
                    b.execute_castle moving_piece.color (if sel.2 < col then .king else .queen))
                else
                  b.move_piece sel (row, col) is_en_passant
              let recorded_piece :=
                if is_castling then
                  if sel = (home_row moving_piece.color, 4) then
                    { moving_piece with has_moved := true }
                  else moving_piece
                else if moving_piece.name = .pawn then
                  { moving_piece with has_moved := true }
                else moving_piece
              let b2 := b1.update_last_move recorded_piece sel (row, col) captured_piece
              let next_player := enemy_of b.current_player
              let next_player_checkmate := b2.is_checkmate next_player
              let b3 := b2.clear_cache
              let b4 :=
                match captured_piece with
                | some cp => b3.add_captured_piece cp
                | none => b3
              some (if next_player_checkmate then b4 else b4.switch_player)
          else if b.is_current_player_piece (b.squares row col) then
            some { (b.clear_cache.show_valid_moves row col) with
                    selected_square := some (row, col) }
          else
            some b.clear_cache

/-- A lone-kings board used to instantiate theorems with hypotheses. -/
def two_kings_board : Board :=
  { squares := fun r c =>
      if r = 7 ∧ c = 4 then some ⟨.white, .king, false⟩
      else if r = 0 ∧ c = 0 then some ⟨.black, .king, false⟩
      else none
    selected_square := none
    current_player := .white
    captured_white_pieces := []
    captured_black_pieces := []
    valid_moves := []
    enpassant_move := []
    last_move := none }

/-- The lone-kings board extended with an unmoved white rook on a1. -/
def rook_corner_board : Board :=
  { two_kings_board with
    squares := fun r c =>
      if r = 7 ∧ c = 0 then some ⟨.white, .rook, false⟩
      else two_kings_board.squares r c }

/-- An en-passant pin position: white pawn (3,4) and white king (3,7)
on the same rank as a black queen (3,0), black having just played the
double pawn step (1,3)-(3,3); white to move. -/
def ep_pin_board : Board :=
  { squares := fun r c =>
      if r = 3 ∧ c = 0 then some ⟨.black, .queen, false⟩
      else if r = 3 ∧ c = 3 then some ⟨.black, .pawn, true⟩
      else if r = 3 ∧ c = 4 then some ⟨.white, .pawn, true⟩
      else if r = 3 ∧ c = 7 then some ⟨.white, .king, false⟩
      else if r = 0 ∧ c = 0 then some ⟨.black, .king, false⟩
      else none
    selected_square := none
    current_player := .white
    captured_white_pieces := []
    captured_black_pieces := []
    valid_moves := []
    enpassant_move := []
    last_move := some ⟨⟨.black, .pawn, true⟩, (1, 3), (3, 3), true, none⟩ }

/-- The pin position after clicking (row 3, col 4), selecting the white
pawn (pixel coordinates (320, 240)). -/
def ep_pin_selected : Board :=
  (ep_pin_board.handle_click (320, 240)).getD ep_pin_board

/-- The pin position after then clicking (row 2, col 3), committing the
en-passant capture (pixel coordinates (240, 160)). -/
def ep_pin_committed : Board :=
  (ep_pin_selected.handle_click (240, 160)).getD ep_pin_selected

/-- Kings plus a white knight on g1, white to move. -/
def knight_click_board : Board :=
  { squares := fun r c =>
      if r = 7 ∧ c = 6 then some ⟨.white, .knight, false⟩
      else if r = 7 ∧ c = 4 then some ⟨.white, .king, false⟩
      else if r = 0 ∧ c = 4 then some ⟨.black, .king, false⟩
      else none
    selected_square := none
    current_player := .white
    captured_white_pieces := []
    captured_black_pieces := []
    valid_moves := []
    enpassant_move := []
    last_move := none }

/-- The knight board after clicking g1 (pixels (480, 560)), selecting the
knight. -/
def knight_selected : Board :=
  (knight_click_board.handle_click (480, 560)).getD knight_click_board

/-- The knight board after then clicking (5, 5) (pixels (400, 400)),
committing the knight move g1-f3 (row delta 2). -/
def knight_committed : Board :=
  (knight_selected.handle_click (400, 400)).getD knight_selected

/-- A board whose only piece is a white pawn at (3, 4), paired with a
fabricated `last_move` whose destination row (4) differs from the pawn's
row while every other en-passant condition holds. -/
def fabricated_ep_board : Board :=
  { squares := fun r c =>
      if r = 3 ∧ c = 4 then some ⟨.white, .pawn, true⟩
      else none
    selected_square := none
    current_player := .white
    captured_white_pieces := []
    captured_black_pieces := []
    valid_moves := []
    enpassant_move := []
    last_move := some ⟨⟨.black, .pawn, true⟩, (2, 3), (4, 3), true, none⟩ }

/-- A board with no pieces at all (in particular no king of either
color). -/
def no_king_board : Board :=
  { squares := fun _ _ => none
    selected_square := none
    current_player := .white
    captured_white_pieces := []
    captured_black_pieces := []
    valid_moves := []
    enpassant_move := []
    last_move := none }

/-!  General lemmas about the accumulator folds used by the generators
and by the legality filter. -/

/-- A fold over a pair of accumulator lists preserves a predicate that
holds of every element each step may add. -/
theorem foldl_pair_invariant {α β : Type} (P : α → Prop)
    (step : List α × List α → β → List α × List α) (l : List β)
    (hstep : ∀ acc x, (∀ m, m ∈ acc.1 ∨ m ∈ acc.2 → P m) →
      ∀ m, m ∈ (step acc x).1 ∨ m ∈ (step acc x).2 → P m) :
    ∀ acc, (∀ m, m ∈ acc.1 ∨ m ∈ acc.2 → P m) →
      ∀ m, m ∈ (l.foldl step acc).1 ∨ m ∈ (l.foldl step acc).2 → P m := by
  induction l with
  | nil => intro acc hacc; simpa using hacc
  | cons x xs ih =>
    intro acc hacc
    simp only [List.foldl_cons]
    exact ih _ (hstep acc x hacc)

/-- Every move surviving the filter in `get_legal_moves` passed
`_is_move_legal`. -/
theorem mem_get_legal_moves_is_legal (b : Board) (row col : Int) (piece : Piece)
    (hpiece : b.squares row col = some piece) (mv : Int × Int)
    (hmv : mv ∈ (b.get_legal_moves row col).1 ∨ mv ∈ (b.get_legal_moves row col).2) :
    (b.is_move_legal (row, col) mv piece.color).1 = true := by
  simp only [Board.get_legal_moves, hpiece] at hmv
  refine foldl_pair_invariant
    (P := fun m => (b.is_move_legal (row, col) m piece.color).1 = true)
    _ _ ?_ ([], []) (by simp) mv hmv
  intro acc x hacc m hm
  by_cases hx : (b.is_move_legal (row, col) x piece.color).1 = true
  · simp only [hx, if_true] at hm
    by_cases hx1 : x ∈ (get_valid_moves piece b (row, col)).1
    · simp only [hx1, if_true, List.mem_append, List.mem_singleton] at hm
      rcases hm with (h | h) | h
      · exact hacc m (Or.inl h)
      · exact h ▸ hx
      · exact hacc m (Or.inr h)
    · simp only [hx1, if_false, List.mem_append, List.mem_singleton] at hm
      rcases hm with h | (h | h)
      · exact hacc m (Or.inl h)
      · exact hacc m (Or.inr h)
      · exact h ▸ hx
  · simp only [hx, if_false] at hm
    exact hacc m hm

/-- C1: for every board, every in-bounds position holding a piece, and
every move in either list returned by `get_legal_moves(row, col)`,
simulating that move (relocating the piece onto the destination, removing
any piece there) yields a position in which `is_in_check` of the moving
piece's color returns false. -/
theorem legal_moves_never_leave_check (b : Board) (row col : Int) (piece : Piece)
    (hrow : 0 ≤ row ∧ row < 8) (hcol : 0 ≤ col ∧ col < 8)
    (hpiece : b.squares row col = some piece) (mv : Int × Int)
    (hmv : mv ∈ (b.get_legal_moves row col).1 ∨ mv ∈ (b.get_legal_moves row col).2) :
    (b.sim_apply (row, col) mv).is_in_check piece.color = false := by
  have hleg := mem_get_legal_moves_is_legal b row col piece hpiece mv hmv
  have hdef : (b.is_move_legal (row, col) mv piece.color).1 =
      ! (b.sim_apply (row, col) mv).is_in_check piece.color := rfl
  rw [hdef, Bool.not_eq_true'] at hleg
  exact hleg

/-- C1 witness: on the lone-kings board the white king's legal move
e1-e2 is simulated into a check-free position. -/
theorem legal_moves_never_leave_check_witness :
    (0 ≤ (7 : Int) ∧ (7 : Int) < 8) ∧ (0 ≤ (4 : Int) ∧ (4 : Int) < 8) ∧
      two_kings_board.squares 7 4 = some ⟨.white, .king, false⟩ ∧
      ((6, 4) ∈ (two_kings_board.get_legal_moves 7 4).1 ∨
        (6, 4) ∈ (two_kings_board.get_legal_moves 7 4).2) ∧
      (two_kings_board.sim_apply (7, 4) (6, 4)).is_in_check Color.white = false :=
  ⟨by decide, by decide, by decide, Or.inl (by decide),
    legal_moves_never_leave_check two_kings_board 7 4 ⟨.white, .king, false⟩
      (by decide) (by decide) (by decide) (6, 4) (Or.inl (by decide))⟩

/-- C3: `_is_move_legal` restores the board it mutated: for any occupied
in-bounds source and any in-bounds destination, the state after the undo
writes (the second component of `is_move_legal`) is exactly the original
board — every square's occupant, including a captured piece put back on
the destination, and every piece's `has_moved` flag. -/
theorem is_move_legal_restores_board (b : Board) (from_pos to_pos : Int × Int)
    (piece : Piece) (hocc : b.squares from_pos.1 from_pos.2 = some piece)
    (hfr : 0 ≤ from_pos.1 ∧ from_pos.1 < 8) (hfc : 0 ≤ from_pos.2 ∧ from_pos.2 < 8)
    (htr : 0 ≤ to_pos.1 ∧ to_pos.1 < 8) (htc : 0 ≤ to_pos.2 ∧ to_pos.2 < 8)
    (color : Color) :
    (b.is_move_legal from_pos to_pos color).2 = b := by
  cases b with
  | mk sq sel cp cw cb vm ep lm =>
    simp only [Board.is_move_legal, Board.sim_apply, Board.set_piece_at]
    congr 1
    funext r c
    by_cases ht : r = to_pos.1 ∧ c = to_pos.2
    · obtain ⟨h1, h2⟩ := ht
      subst h1; subst h2
      simp
    · by_cases hf : r = from_pos.1 ∧ c = from_pos.2
      · obtain ⟨h1, h2⟩ := hf
        subst h1; subst h2
        simp [ht]
      · simp [ht, hf]

/-- C3 witness: the round trip at a concrete position of the lone-kings
board (simulating e1-e2 and undoing it) is the identity. -/
theorem is_move_legal_restores_board_witness :
    two_kings_board.squares 7 4 = some ⟨.white, .king, false⟩ ∧
      (two_kings_board.is_move_legal (7, 4) (6, 4) Color.white).2 = two_kings_board :=
  ⟨by decide,
    is_move_legal_restores_board two_kings_board (7, 4) (6, 4) ⟨.white, .king, false⟩
      (by decide) (by decide) (by decide) (by decide) (by decide) Color.white⟩

/-- On-board coordinates, `0 <= x < 8` in both components. -/
def in_bounds (m : Int × Int) : Prop :=
  0 ≤ m.1 ∧ m.1 < 8 ∧ 0 ≤ m.2 ∧ m.2 < 8

instance (m : Int × Int) : Decidable (in_bounds m) := by
  unfold in_bounds; infer_instance

/-- A fold over a single accumulator list preserves a predicate that
holds of every element each step may add. -/
theorem foldl_list_invariant {α β : Type} (P : α → Prop)
    (step : List α → β → List α) (l : List β)
    (hstep : ∀ acc x, (∀ m, m ∈ acc → P m) → ∀ m, m ∈ step acc x → P m) :
    ∀ acc, (∀ m, m ∈ acc → P m) → ∀ m, m ∈ l.foldl step acc → P m := by
  induction l with
  | nil => intro acc hacc; simpa using hacc
  | cons x xs ih =>
    intro acc hacc
    simp only [List.foldl_cons]
    exact ih _ (hstep acc x hacc)

/-- Offset generators (knight, king) only emit squares that passed their
bound guard. -/
theorem offset_moves_in_bounds (p : Piece) (b : Board) (pos : Int × Int)
    (offsets : List (Int × Int)) (m : Int × Int)
    (hm : m ∈ (offset_moves p b pos offsets).1 ∨ m ∈ (offset_moves p b pos offsets).2) :
    in_bounds m := by
  revert hm
  refine foldl_pair_invariant in_bounds _ offsets ?_ ([], []) (by simp) m
  intro acc x hacc m1 hm1
  dsimp only at hm1
  by_cases hb : 0 ≤ pos.1 + x.1 ∧ pos.1 + x.1 < 8 ∧ 0 ≤ pos.2 + x.2 ∧ pos.2 + x.2 < 8
  · rw [if_pos hb] at hm1
    rcases hsq : b.squares (pos.1 + x.1) (pos.2 + x.2) with _ | q
    · rw [hsq] at hm1
      simp only [List.mem_append, List.mem_singleton] at hm1
      rcases hm1 with (h | h) | h
      · exact hacc m1 (Or.inl h)
      · exact h ▸ hb
      · exact hacc m1 (Or.inr h)
    · rw [hsq] at hm1
      dsimp only at hm1
      by_cases hcol : ¬ (q.color = p.color)
      · rw [if_pos hcol] at hm1
        simp only [List.mem_append, List.mem_singleton] at hm1
        rcases hm1 with h | (h | h)
        · exact hacc m1 (Or.inl h)
        · exact hacc m1 (Or.inr h)
        · exact h ▸ hb
      · rw [if_neg hcol] at hm1
        exact hacc m1 hm1
  · rw [if_neg hb] at hm1
    exact hacc m1 hm1

/-- A ray walk only emits squares that passed its bound guard. -/
theorem ray_from_in_bounds (p : Piece) (b : Board) (pos : Int × Int)
    (dir : Int × Int) (ds : List Int) (m : Int × Int)
    (hm : m ∈ (ray_from p b pos dir ds).1 ∨ m ∈ (ray_from p b pos dir ds).2) :
    in_bounds m := by
  induction ds with
  | nil => simp [ray_from] at hm
  | cons d rest ih =>
    rw [ray_from] at hm
    by_cases hb : 0 ≤ pos.1 + dir.1 * d ∧ pos.1 + dir.1 * d < 8 ∧
        0 ≤ pos.2 + dir.2 * d ∧ pos.2 + dir.2 * d < 8
    · rw [if_pos hb] at hm
      rcases hsq : b.squares (pos.1 + dir.1 * d) (pos.2 + dir.2 * d) with _ | q
      · rw [hsq] at hm
        simp only [List.mem_cons] at hm
        rcases hm with (h | h) | h
        · exact h ▸ hb
        · exact ih (Or.inl h)
        · exact ih (Or.inr h)
      · rw [hsq] at hm
        dsimp only at hm
        by_cases hcol : ¬ (q.color = p.color)
        · rw [if_pos hcol] at hm
          simp only [List.not_mem_nil, List.mem_singleton, false_or] at hm
          exact hm ▸ hb
        · rw [if_neg hcol] at hm
          simp at hm
    · rw [if_neg hb] at hm
      simp at hm

/-- Sliding generators (bishop, queen, rook) only emit in-bounds squares. -/
theorem slider_moves_in_bounds (p : Piece) (b : Board) (pos : Int × Int)
    (directions : List (Int × Int)) (m : Int × Int)
    (hm : m ∈ (slider_moves p b pos directions).1 ∨
      m ∈ (slider_moves p b pos directions).2) :
    in_bounds m := by
  revert hm
  refine foldl_pair_invariant in_bounds _ directions ?_ ([], []) (by simp) m
  intro acc x hacc m1 hm1
  dsimp only at hm1
  simp only [List.mem_append] at hm1
  rcases hm1 with (h | h) | (h | h)
  · exact hacc m1 (Or.inl h)
  · exact ray_from_in_bounds p b pos x ray_distances m1 (Or.inl h)
  · exact hacc m1 (Or.inr h)
  · exact ray_from_in_bounds p b pos x ray_distances m1 (Or.inr h)

/-- The pawn generator only emits in-bounds squares (its forward moves
keep the pawn's own in-bounds column; everything else is guarded). -/
theorem pawn_moves_in_bounds (p : Piece) (b : Board) (pos : Int × Int)
    (hc : 0 ≤ pos.2 ∧ pos.2 < 8) (m : Int × Int)
    (hm : m ∈ (pawn_moves p b pos).1 ∨ m ∈ (pawn_moves p b pos).2) :
    in_bounds m := by
  rcases hm with hm | hm
  · simp only [pawn_moves] at hm
    by_cases hb : 0 ≤ pos.1 + pawn_direction p ∧ pos.1 + pawn_direction p < 8
    · rw [if_pos hb] at hm
      by_cases he : b.squares (pos.1 + pawn_direction p) pos.2 = none
      · rw [if_pos he] at hm
        simp only [List.mem_cons] at hm
        rcases hm with h | h
        · exact h ▸ ⟨hb.1, hb.2, hc.1, hc.2⟩
        · by_cases hmv : p.has_moved = false
          · rw [if_pos hmv] at h
            by_cases hb2 : 0 ≤ pos.1 + 2 * pawn_direction p ∧
                pos.1 + 2 * pawn_direction p < 8
            · rw [if_pos hb2] at h
              by_cases he2 : b.squares (pos.1 + 2 * pawn_direction p) pos.2 = none
              · rw [if_pos he2] at h
                simp only [List.mem_singleton] at h
                exact h ▸ ⟨hb2.1, hb2.2, hc.1, hc.2⟩
              · rw [if_neg he2] at h
                simp at h
            · rw [if_neg hb2] at h
              simp at h
          · rw [if_neg hmv] at h
            simp at h
      · rw [if_neg he] at hm
        simp at hm
    · rw [if_neg hb] at hm
      simp at hm
  · simp only [pawn_moves] at hm
    revert hm
    refine foldl_list_invariant in_bounds _ [pos.2 - 1, pos.2 + 1] ?_ [] (by simp) m
    intro acc x hacc m1 hm1
    by_cases hb : 0 ≤ x ∧ x < 8 ∧ 0 ≤ pos.1 + pawn_direction p ∧
        pos.1 + pawn_direction p < 8
    · rw [if_pos hb] at hm1
      rcases hsq : b.squares (pos.1 + pawn_direction p) x with _ | q
      · rw [hsq] at hm1
        exact hacc m1 hm1
      · rw [hsq] at hm1
        dsimp only at hm1
        by_cases hcol : ¬ (q.color = p.color)
        · rw [if_pos hcol] at hm1
          simp only [List.mem_append, List.mem_singleton] at hm1
          rcases hm1 with h | h
          · exact hacc m1 h
          · exact h ▸ ⟨hb.2.2.1, hb.2.2.2, hb.1, hb.2.1⟩
        · rw [if_neg hcol] at hm1
          exact hacc m1 hm1
    · rw [if_neg hb] at hm1
      exact hacc m1 hm1

/-- C10: for a pawn, knight, bishop, queen or king at any in-bounds
position, every position in both lists returned by `get_valid_moves` has
row and column in `[0, 8)` — no generator emits an off-board square. -/
theorem get_valid_moves_in_bounds (p : Piece) (b : Board) (pos : Int × Int)
    (hkind : p.name = .pawn ∨ p.name = .knight ∨ p.name = .bishop ∨
      p.name = .queen ∨ p.name = .king)
    (hr : 0 ≤ pos.1 ∧ pos.1 < 8) (hc : 0 ≤ pos.2 ∧ pos.2 < 8) (m : Int × Int)
    (hm : m ∈ (get_valid_moves p b pos).1 ∨ m ∈ (get_valid_moves p b pos).2) :
    0 ≤ m.1 ∧ m.1 < 8 ∧ 0 ≤ m.2 ∧ m.2 < 8 := by
  rcases hkind with hk | hk | hk | hk | hk
  all_goals simp only [get_valid_moves, hk] at hm
  · exact pawn_moves_in_bounds p b pos hc m hm
  · exact offset_moves_in_bounds p b pos _ m hm
  · exact slider_moves_in_bounds p b pos _ m hm
  · exact slider_moves_in_bounds p b pos _ m hm
  · exact offset_moves_in_bounds p b pos _ m hm

/-- C10 witness: the white king's generator output at e1 on the
lone-kings board stays on the board (checked at d2). -/
theorem get_valid_moves_in_bounds_witness :
    ((⟨.white, .king, false⟩ : Piece).name = Kind.pawn ∨
      (⟨.white, .king, false⟩ : Piece).name = Kind.knight ∨
      (⟨.white, .king, false⟩ : Piece).name = Kind.bishop ∨
      (⟨.white, .king, false⟩ : Piece).name = Kind.queen ∨
      (⟨.white, .king, false⟩ : Piece).name = Kind.king) ∧
    ((6, 3) ∈ (get_valid_moves ⟨.white, .king, false⟩ two_kings_board (7, 4)).1 ∨
      (6, 3) ∈ (get_valid_moves ⟨.white, .king, false⟩ two_kings_board (7, 4)).2) ∧
    (0 ≤ (6 : Int) ∧ (6 : Int) < 8 ∧ 0 ≤ (3 : Int) ∧ (3 : Int) < 8) :=
  ⟨by decide, Or.inl (by decide),
    get_valid_moves_in_bounds ⟨.white, .king, false⟩ two_kings_board (7, 4)
      (by decide) (by decide) (by decide) (6, 3) (Or.inl (by decide))⟩

/-- `List.find?` returns the unique element satisfying the predicate. -/
theorem find?_eq_of_unique {α : Type} (p : α → Bool) :
    ∀ (l : List α) (x : α), x ∈ l → p x = true →
      (∀ y ∈ l, p y = true → y = x) → l.find? p = some x := by
  intro l
  induction l with
  | nil => intro x hx _ _; cases hx
  | cons a as ih =>
    intro x hx hpx huniq
    by_cases ha : p a = true
    · rw [List.find?_cons_of_pos _ ha]
      exact congrArg some (huniq a (by simp) ha)
    · rw [List.find?_cons_of_neg _ ha]
      have hxa : x ≠ a := fun h => ha (h ▸ hpx)
      have hxas : x ∈ as := by
        rcases List.mem_cons.mp hx with h | h
        · exact absurd h hxa
        · exact h
      exact ih x hxas hpx fun y hy hpy => huniq y (List.mem_cons_of_mem a hy) hpy

/-- C4: on a board whose unique square holding a king of the given color
is `kp`, `is_in_check(color)` is true iff some square holds a piece of
the opposing color whose raw capture list contains `kp`. -/
theorem is_in_check_iff_enemy_attacks_king (b : Board) (color : Color)
    (kp : Int × Int) (hkp : kp ∈ all_positions)
    (huniq : ∀ rc ∈ all_positions, (king_matches b color rc = true ↔ rc = kp)) :
    b.is_in_check color = true ↔
      ∃ r c pc, r ∈ range8 ∧ c ∈ range8 ∧ b.squares r c = some pc ∧
        pc.color = enemy_of color ∧ kp ∈ (get_valid_moves pc b (r, c)).2 := by
  have hfind : b.find_king_position color = some kp :=
    find?_eq_of_unique _ all_positions kp hkp ((huniq kp hkp).mpr rfl)
      fun y hy hpy => (huniq y hy).mp hpy
  simp only [Board.is_in_check, hfind, List.any_eq_true]
  constructor
  · rintro ⟨r, hr, c, hc, h⟩
    rcases hsq : b.squares r c with _ | pc
    · rw [hsq] at h
      simp at h
    · rw [hsq] at h
      dsimp only at h
      rw [Bool.and_eq_true, decide_eq_true_eq, decide_eq_true_eq] at h
      exact ⟨r, c, pc, hr, hc, hsq, h.1, h.2⟩
  · rintro ⟨r, c, pc, hr, hc, hsq, hcol, hmem⟩
    refine ⟨r, hr, c, hc, ?_⟩
    rw [hsq]
    dsimp only
    rw [Bool.and_eq_true, decide_eq_true_eq, decide_eq_true_eq]
    exact ⟨hcol, hmem⟩

/-- C4 witness: on the lone-kings board, whose unique white king stands
at e1, the equivalence holds (both sides false: nothing attacks e1). -/
theorem is_in_check_iff_enemy_attacks_king_witness :
    ((7, 4) ∈ all_positions ∧
      ∀ rc ∈ all_positions,
        (king_matches two_kings_board Color.white rc = true ↔ rc = (7, 4))) ∧
    (two_kings_board.is_in_check Color.white = true ↔
      ∃ r c pc, r ∈ range8 ∧ c ∈ range8 ∧ two_kings_board.squares r c = some pc ∧
        pc.color = enemy_of Color.white ∧
        (7, 4) ∈ (get_valid_moves pc two_kings_board (r, c)).2) :=
  ⟨⟨by decide, by decide⟩,
    is_in_check_iff_enemy_attacks_king two_kings_board Color.white (7, 4)
      (by decide) (by decide)⟩

/-- The columns strictly between king and rook checked for emptiness:
`range(5, 7)` kingside, `range(1, 4)` queenside. -/
def between_cols : Side → List Int
  | .king => [5, 6]
  | .queen => [1, 2, 3]

/-- The transit columns checked for enemy attack: col 5 kingside, cols 2
and 3 queenside. -/
def transit_cols : Side → List Int
  | .king => [5]
  | .queen => [2, 3]

/-- C5: `can_castle(color, side)` is true iff an unmoved king sits on the
home rank at column 4 and an unmoved rook at the side's corner column,
the king is not in check, every square strictly between them is empty,
and no transit square (col 5 kingside; cols 2, 3 queenside) is attacked
by an opposing piece's raw capture set. -/
theorem can_castle_iff (b : Board) (color : Color) (side : Side) :
    b.can_castle color side = true ↔
      (∃ kpc, b.squares (home_row color) 4 = some kpc ∧
        kpc.name = Kind.king ∧ kpc.has_moved = false) ∧
      (∃ rpc, b.squares (home_row color) (castle_rook_col side) = some rpc ∧
        rpc.name = Kind.rook ∧ rpc.has_moved = false) ∧
      b.is_in_check color = false ∧
      (∀ c ∈ between_cols side, b.squares (home_row color) c = none) ∧
      (∀ c ∈ transit_cols side,
        b.is_square_under_attack (home_row color, c) color = false) := by
  cases side with
  | king =>
    simp only [Board.can_castle, castle_rook_col, between_cols, transit_cols, reduceIte]
    rcases hk : b.squares (home_row color) 4 with _ | kpc <;>
      rcases hrk : b.squares (home_row color) 7 with _ | rpc
    · simp [hk, hrk]
    · simp [hk, hrk]
    · simp [hk, hrk]
    · try simp only [hk]
      try simp only [hrk]
      try dsimp only
      split_ifs with hA hB hC
      · constructor
        · intro h
          exact absurd h (by simp)
        · rintro ⟨⟨kpc1, hke, hkn, hkm⟩, ⟨rpc1, hre, hrn, hrm⟩, -, -, -⟩
          rw [Option.some.injEq] at hke hre
          subst hke; subst hre
          rcases hA with h | h | h | h
          · exact absurd hkn h
          · exact absurd hrn h
          · rw [hkm] at h
            exact absurd h (by simp)
          · rw [hrm] at h
            exact absurd h (by simp)
      · constructor
        · intro h
          exact absurd h (by simp)
        · rintro ⟨-, -, hic, -, -⟩
          rw [hic] at hB
          exact absurd hB (by simp)
      · push_neg at hA
        obtain ⟨hkn, hrn, hkm, hrm⟩ := hA
        simp only [ne_eq, Bool.not_eq_true] at hkm hrm
        rw [Bool.not_eq_true] at hB
        constructor
        · intro hatt
          rw [Bool.not_eq_true'] at hatt
          refine ⟨⟨kpc, rfl, hkn, hkm⟩, ⟨rpc, rfl, hrn, hrm⟩, hB, ?_, ?_⟩
          · intro c hc
            rcases (by simpa using hc : c = 5 ∨ c = 6) with rfl | rfl
            · exact hC.1
            · exact hC.2
          · intro c hc
            have hc5 : c = 5 := by simpa using hc
            subst hc5
            exact hatt
        · rintro ⟨-, -, -, -, hatt⟩
          rw [Bool.not_eq_true']
          exact hatt 5 (by simp)
      · constructor
        · intro h
          exact absurd h (by simp)
        · rintro ⟨-, -, -, hemp, -⟩
          exact absurd ⟨hemp 5 (by simp), hemp 6 (by simp)⟩ hC
  | queen =>
    have hqk : ¬ (Side.queen = Side.king) := by decide
    simp only [Board.can_castle, castle_rook_col, between_cols, transit_cols, if_neg hqk]
    rcases hk : b.squares (home_row color) 4 with _ | kpc <;>
      rcases hrk : b.squares (home_row color) 0 with _ | rpc
    · simp [hk, hrk]
    · simp [hk, hrk]
    · simp [hk, hrk]
    · try simp only [hk]
      try simp only [hrk]
      try dsimp only
      split_ifs with hA hB hC
      · constructor
        · intro h
          exact absurd h (by simp)
        · rintro ⟨⟨kpc1, hke, hkn, hkm⟩, ⟨rpc1, hre, hrn, hrm⟩, -, -, -⟩
          rw [Option.some.injEq] at hke hre
          subst hke; subst hre
          rcases hA with h | h | h | h
          · exact absurd hkn h
          · exact absurd hrn h
          · rw [hkm] at h
            exact absurd h (by simp)
          · rw [hrm] at h
            exact absurd h (by simp)
      · constructor
        · intro h
          exact absurd h (by simp)
        · rintro ⟨-, -, hic, -, -⟩
          rw [hic] at hB
          exact absurd hB (by simp)
      · push_neg at hA
        obtain ⟨hkn, hrn, hkm, hrm⟩ := hA
        simp only [ne_eq, Bool.not_eq_true] at hkm hrm
        rw [Bool.not_eq_true] at hB
        constructor
        · intro hatt
          rw [Bool.not_eq_true', Bool.or_eq_false_iff] at hatt
          refine ⟨⟨kpc, rfl, hkn, hkm⟩, ⟨rpc, rfl, hrn, hrm⟩, hB, ?_, ?_⟩
          · intro c hc
            rcases (by simpa using hc : c = 1 ∨ c = 2 ∨ c = 3) with rfl | rfl | rfl
            · exact hC.1
            · exact hC.2.1
            · exact hC.2.2
          · intro c hc
            rcases (by simpa using hc : c = 2 ∨ c = 3) with rfl | rfl
            · exact hatt.1
            · exact hatt.2
        · rintro ⟨-, -, -, -, hatt⟩
          rw [Bool.not_eq_true', Bool.or_eq_false_iff]
          exact ⟨hatt 2 (by simp), hatt 3 (by simp)⟩
      · constructor
        · intro h
          exact absurd h (by simp)
        · rintro ⟨-, -, -, hemp, -⟩
          exact absurd ⟨hemp 1 (by simp), hemp 2 (by simp), hemp 3 (by simp)⟩ hC

/-- C9 (as amended): when no king of the queried color is on the board,
`is_in_check` does not fail or assert — it returns false as a normal
result. -/
theorem is_in_check_false_when_king_absent (b : Board) (color : Color)
    (h : b.find_king_position color = none) : b.is_in_check color = false := by
  simp [Board.is_in_check, h]

/-- C9 witness: the empty board has no white king and `is_in_check`
returns false on it. -/
theorem is_in_check_false_when_king_absent_witness :
    no_king_board.find_king_position Color.white = none ∧
      no_king_board.is_in_check Color.white = false :=
  ⟨by decide, is_in_check_false_when_king_absent no_king_board Color.white (by decide)⟩

/-- C9 counterexample: on a board with no white king, `is_in_check`
returns an ordinary `false` — there is no assertion or panic (the
modelled function is total), contradicting the claim that engine
operations raise a fatal error in this state. -/
theorem is_in_check_no_king_normal_result :
    no_king_board.find_king_position Color.white = none ∧
      no_king_board.is_in_check Color.white = false ∧
      no_king_board.is_checkmate Color.white = false := by decide

/-- C7 (as amended): after every move recorded by `_update_last_move`,
the stored double-pawn flag is true iff the absolute row difference
between the from and to positions is exactly 2 — regardless of the moved
piece's kind. -/
theorem update_last_move_flag_iff_row_delta_two (b : Board) (piece : Piece)
    (from_position to_position : Int × Int) (captured_piece : Option Piece) :
    ((b.update_last_move piece from_position to_position
        captured_piece).last_move).map LastMove.is_double_pawn_move = some true ↔
      (from_position.1 - to_position.1).natAbs = 2 := by
  simp [Board.update_last_move, is_double_pawn_move_test]

/-- C7 counterexample: committing the knight move g1-f3 through
`handle_click` (row delta 2) stores `is_double_pawn_move = true` for a
knight, refuting the claim that the flag is true only for pawns. -/
theorem knight_move_sets_double_pawn_flag :
    knight_committed.last_move =
      some ⟨⟨.white, .knight, false⟩, (7, 6), (5, 5), true, none⟩ ∧
      ¬ (Kind.knight = Kind.pawn) := by decide

/-- C8: evaluating `move_piece` at a king relocation e1-e2 and at a rook
relocation a1-a3 shows both pieces still carry `has_moved = false`
afterwards — the flag-setting branch in `move_piece` only covers pawns,
so relocating a king or rook does not set it (while a pawn relocation
does). -/
theorem move_piece_leaves_king_rook_unmarked :
    (two_kings_board.move_piece (7, 4) (6, 4) false).2.squares 6 4 =
        some ⟨.white, .king, false⟩ ∧
      (rook_corner_board.move_piece (7, 0) (5, 0) false).2.squares 5 0 =
        some ⟨.white, .rook, false⟩ ∧
      (ep_pin_board.move_piece (3, 4) (2, 4) false).2.squares 2 4 =
        some ⟨.white, .pawn, true⟩ := by decide

/-- C6 (as amended): for a pawn at `(r, c)` and an existing last move
`lm`, the en-passant destination `(r + direction, lm.to.col)` is offered
by `_get_available_en_passant_moves` iff the last-moved piece is a pawn
of the opposing color, its double-step flag is set, the capturing pawn
sits on row 3 (white) / row 4 (black), the last move's destination row
equals the pawn's row, its destination column is adjacent to the pawn's,
and the destination square is empty. -/
theorem en_passant_offered_iff (b : Board) (p : Piece) (r c : Int) (lm : LastMove)
    (hp : b.squares r c = some p) (hpn : p.name = Kind.pawn)
    (hlast : b.last_move = some lm) :
    (r + pawn_direction p, lm.to_pos.2) ∈
        b.get_available_en_passant_moves p (r, c) ↔
      (lm.piece.name = Kind.pawn ∧ lm.is_double_pawn_move = true ∧
        ¬ (lm.piece.color = p.color) ∧
        ((p.color = Color.white ∧ r = 3) ∨ (p.color = Color.black ∧ r = 4)) ∧
        lm.to_pos.1 = r ∧ (lm.to_pos.2 - c).natAbs = 1 ∧
        b.squares (r + pawn_direction p) lm.to_pos.2 = none) := by
  simp only [Board.get_available_en_passant_moves, hlast]
  by_cases h1 : lm.piece.name = Kind.pawn
  swap
  · simp [h1]
  by_cases h2 : lm.is_double_pawn_move = true ∧ ¬ (lm.piece.color = p.color)
  swap
  · by_cases h2a : lm.is_double_pawn_move = true
    · have h2b : ¬ ¬ (lm.piece.color = p.color) := fun hcc => h2 ⟨h2a, hcc⟩
      simp only [h1, not_true_eq_false, if_false, h2a, true_and]
      rw [not_not] at h2b
      simp [h2b]
    · simp [h1, h2a]
  by_cases h3 : (p.color = Color.white ∧ r = 3) ∨ (p.color = Color.black ∧ r = 4)
  swap
  · simp [h1, h2.1, h2.2, h3]
  by_cases h4a : lm.to_pos.1 = r
  swap
  · simp [h1, h2.1, h2.2, h3, h4a]
  by_cases h4b : (lm.to_pos.2 - c).natAbs = 1
  swap
  · simp [h1, h2.1, h2.2, h3, h4a, h4b]
  have hbound : 0 ≤ r + pawn_direction p ∧ r + pawn_direction p < 8 := by
    rcases h3 with ⟨hw, hr3⟩ | ⟨hb, hr4⟩
    · subst hr3
      simp [pawn_direction, hw]
    · subst hr4
      rw [pawn_direction, if_neg (by simp [hb])]
      constructor <;> norm_num
  by_cases h5 : b.squares (r + pawn_direction p) lm.to_pos.2 = none
  · simp [h1, h2.1, h2.2, h3, h4a, h4b, hbound.1, hbound.2, h5]
  · simp [h1, h2.1, h2.2, h3, h4a, h4b, h5]

/-- C6 witness: in the genuine en-passant position `ep_pin_board`, the
white pawn at (3, 4) is offered the capture to (2, 3) and all conditions
of the equivalence hold. -/
theorem en_passant_offered_iff_witness :
    ep_pin_board.squares 3 4 = some ⟨.white, .pawn, true⟩ ∧
      (Piece.name ⟨.white, .pawn, true⟩ = Kind.pawn) ∧
      ep_pin_board.last_move = some ⟨⟨.black, .pawn, true⟩, (1, 3), (3, 3), true, none⟩ ∧
      (((3 : Int) + pawn_direction ⟨.white, .pawn, true⟩,
          (LastMove.to_pos ⟨⟨.black, .pawn, true⟩, (1, 3), (3, 3), true, none⟩).2) ∈
          ep_pin_board.get_available_en_passant_moves ⟨.white, .pawn, true⟩ (3, 4) ↔
        ((LastMove.piece ⟨⟨.black, .pawn, true⟩, (1, 3), (3, 3), true, none⟩).name = Kind.pawn ∧
          (LastMove.is_double_pawn_move ⟨⟨.black, .pawn, true⟩, (1, 3), (3, 3), true, none⟩) = true ∧
          ¬ ((LastMove.piece ⟨⟨.black, .pawn, true⟩, (1, 3), (3, 3), true, none⟩).color =
            (Piece.color ⟨.white, .pawn, true⟩)) ∧
          (((Piece.color ⟨.white, .pawn, true⟩) = Color.white ∧ (3 : Int) = 3) ∨
            ((Piece.color ⟨.white, .pawn, true⟩) = Color.black ∧ (3 : Int) = 4)) ∧
          (LastMove.to_pos ⟨⟨.black, .pawn, true⟩, (1, 3), (3, 3), true, none⟩).1 = 3 ∧
          ((LastMove.to_pos ⟨⟨.black, .pawn, true⟩, (1, 3), (3, 3), true, none⟩).2 - 4).natAbs = 1 ∧
          ep_pin_board.squares
            ((3 : Int) + pawn_direction ⟨.white, .pawn, true⟩)
            (LastMove.to_pos ⟨⟨.black, .pawn, true⟩, (1, 3), (3, 3), true, none⟩).2 = none)) :=
  ⟨by decide, by decide, by decide,
    en_passant_offered_iff ep_pin_board ⟨.white, .pawn, true⟩ 3 4
      ⟨⟨.black, .pawn, true⟩, (1, 3), (3, 3), true, none⟩
      (by decide) (by decide) (by decide)⟩

/-- C6 counterexample: on `fabricated_ep_board` every condition named by
the claim holds — the last move exists, is a black pawn with the
double-step flag set, the white capturing pawn sits on row 3, and the
destination columns differ by one — yet the code offers no en-passant
move at all, because the stored destination row (4) is not the pawn's
row: the claim omits the code's `last_to_row == row` (and emptiness)
requirements. -/
theorem en_passant_claim_conditions_insufficient :
    fabricated_ep_board.last_move =
        some ⟨⟨.black, .pawn, true⟩, (2, 3), (4, 3), true, none⟩ ∧
      (Kind.pawn = Kind.pawn ∧ ¬ (Color.black = Color.white)) ∧
      ((Color.white = Color.white ∧ (3 : Int) = 3)) ∧
      (((4 : Int) - 4).natAbs = 0 ∧ ((3 : Int) - 4).natAbs = 1) ∧
      fabricated_ep_board.get_available_en_passant_moves
        ⟨.white, .pawn, true⟩ (3, 4) = [] ∧
      ¬ ((2, 3) ∈ fabricated_ep_board.get_available_en_passant_moves
        ⟨.white, .pawn, true⟩ (3, 4)) := by decide

/-- C2: a committed move can leave the mover in check.  On
`ep_pin_board`, clicking the white pawn at (3, 4) and then its offered
en-passant destination (2, 3) commits the capture through
`handle_click` / `move_piece` — the black pawn at (3, 3) is removed and
the white pawn lands on (2, 3) — after which `is_in_check('white')` is
true: the legality simulation in `_is_move_legal` relocated only the
moving pawn and never removed the captured pawn, so the discovered
attack of the queen on a5 against the king on h5 was missed. -/
theorem committed_en_passant_leaves_mover_in_check :
    (ep_pin_board.handle_click (320, 240)).isSome = true ∧
      ep_pin_selected.selected_square = some (3, 4) ∧
      ep_pin_selected.valid_moves = [(2, 4), (2, 3)] ∧
      (ep_pin_selected.handle_click (240, 160)).isSome = true ∧
      ep_pin_committed.squares 2 3 = some ⟨.white, .pawn, true⟩ ∧
      ep_pin_committed.squares 3 3 = none ∧
      ep_pin_committed.squares 3 4 = none ∧
      ep_pin_committed.captured_black_pieces = [⟨.black, .pawn, true⟩] ∧
      ep_pin_committed.current_player = Color.black ∧
      ep_pin_committed.is_in_check Color.white = true := by decide
